import Mathlib

/-!
Shallow embedding of the chain-go operation-chain engine.

Sources: src/chain.go (the core: Chain, Args, New, the builder methods,
Execute, buildInterceptors, wrapError), src/unnamed/part_002 (the
LogInterceptor and RecoverInterceptor variant matching src/chain.go's
HandleFunc/Args types), and src/interceptor.go (RecoverInterceptor).

Modelling decisions, each visible at its definition:
- A Go context is represented by the value of its Err() method: `none` for a
  live context, `some e` for a done one.  WithTimeout stores the duration; at
  the moment Execute derives the deadline context its Err() still equals the
  base context's Err(), and actual expiry is a real-time phenomenon outside
  the model, so Execute consults the base context's doneness.
- A step function mutates the shared output through the Args pointers and may
  emit observable events (slog calls, its own effects).  It is embedded as a
  state transformer `Ctx → I → O → O × List Event × Outcome`; the engine
  passes it the pointees of args.input / args.output, which is how steps
  access the state through Args.Input() / Args.Output().
- A Go panic is the `Outcome.panicked` result: it aborts the surrounding
  control flow, carrying the output mutations performed before the panic.
- Serial and Parallel (chain.go:92-124) append closures over the chain that
  read c.interceptors and c.maxGoroutines only when Execute invokes them;
  they are defunctionalized as `Block` data and the run functions read the
  chain's configuration as it stands at execution time, which is exactly what
  the captured `c` provides in Go.
- A parallel block is executed by errgroup (chain.go:106-124).  The model
  runs the wrapped handlers in registration order, one admissible
  linearization of the goroutine schedule (exact for a limit of 1); after the
  first failure the errgroup's derived context is cancelled, so later
  handlers observe a done context, and g.Wait reports the first failure.
  The g.SetLimit call is recorded as an observable event.
- getFunctionName (chain.go:171) derives a step's name from its function
  pointer's runtime symbol; a `Step` carries that name as data next to the
  function value.
-/

namespace ChainGo

/-- Go error values as the engine produces and inspects them: the two context
sentinel errors, opaque user errors, and the wrapping `fmt.Errorf("%s: %w", name, err)`
produced by wrapError (chain.go:166). -/
inductive GoError where
  | canceled
  | deadlineExceeded
  | base (msg : String)
  | wrap (name : String) (inner : GoError)
deriving DecidableEq, Repr

/-- The string an error's Error() method renders. -/
def GoError.message : GoError → String
  | .canceled => "context canceled"
  | .deadlineExceeded => "context deadline exceeded"
  | .base m => m
  | .wrap n inner => n ++ ": " ++ inner.message

/-- Model of errors.Unwrap: the wrapped inner error when there is one,
otherwise none (Go returns a nil error for values without an Unwrap method). -/
def goUnwrap : GoError → Option GoError
  | .wrap _ inner => some inner
  | _ => none

/-- Whether the error is annotated (at any wrapping depth) with the given
step name — the only step-identification mechanism wrapError provides. -/
def GoError.namedWith (n : String) : GoError → Bool
  | .wrap m inner => m == n || inner.namedWith n
  | _ => false

/-- A context, represented by the value its Err() method returns:
`none` while live, `some e` once done. -/
abbrev Ctx := Option GoError

/-- Observable events of a run: a step's or test interceptor's own marks,
the slog calls of LogInterceptor, and the g.SetLimit call of a parallel
block (chain.go:112). -/
inductive Event where
  | tag (s : String)
  | logBefore
  | logWarn
  | logAfter
  | setLimit (n : Int)
deriving DecidableEq, Repr

/-- Result of running a step body or a wrapped handler: normal return with a
nil error, normal return with a non-nil error, or a Go panic unwinding out. -/
inductive Outcome where
  | ok
  | fail (e : GoError)
  | panicked (payload : String)
deriving DecidableEq, Repr

/-- A Go pointer: its address (identity) together with the current pointee
value.  The address never changes; mutation through the pointer updates the
pointee. -/
structure Ptr (α : Type) where
  addr : Nat
  val : α
deriving DecidableEq, Repr

/-- HandleFunc (chain.go:17): a function on a context and the chain's Args.
It reads the input pointee and the current output pointee, returns the new
output pointee, the events it emitted, and its outcome. -/
abbrev HandleFunc (I O : Type) := Ctx → I → O → O × List Event × Outcome

/-- Interceptor (chain.go:20): wraps a HandleFunc. -/
abbrev Interceptor (I O : Type) := HandleFunc I O → HandleFunc I O

/-- A registered step: its function value plus the symbol name that
getFunctionName (chain.go:171-175) derives from the function pointer. -/
structure Step (I O : Type) where
  name : String
  fn : HandleFunc I O

/-- Args (chain.go:33): the input and output pointers shared by all steps.
The sync.Mutex only serializes WithLock callbacks between concurrent
siblings; in the linearized schedule it has no observable effect. -/
structure Args (I O : Type) where
  input : Ptr I
  output : Ptr O

/-- Args.Input (chain.go:52) returns the stored input pointer. -/
def Args.Input (a : Args I O) : Ptr I := a.input

/-- Args.Output (chain.go:57) returns the stored output pointer. -/
def Args.Output (a : Args I O) : Ptr O := a.output

/-- A registered execution block: the defunctionalized closure Serial or
Parallel (chain.go:92-124) appends to c.fns. -/
inductive Block (I O : Type) where
  | serial (fns : List (Step I O))
  | parallel (fns : List (Step I O))

/-- Chain (chain.go:23). -/
@[ext]
structure Chain (I O : Type) where
  ctx : Ctx
  args : Args I O
  fns : List (Block I O)
  interceptors : List (Interceptor I O)
  timeout : Nat
  maxGoroutines : Int

/-- New (chain.go:40): background context (Err() nil), the given pointers,
no blocks, no interceptors, zero timeout, zero maxGoroutines. -/
def New (input : Ptr I) (output : Ptr O) : Chain I O :=
  ⟨none, ⟨input, output⟩, [], [], 0, 0⟩

/-- WithContext (chain.go:69). -/
def Chain.WithContext (c : Chain I O) (ctx : Ctx) : Chain I O :=
  { c with ctx := ctx }

/-- WithTimeout (chain.go:75). -/
def Chain.WithTimeout (c : Chain I O) (d : Nat) : Chain I O :=
  { c with timeout := d }

/-- WithMaxGoroutines (chain.go:81). -/
def Chain.WithMaxGoroutines (c : Chain I O) (m : Int) : Chain I O :=
  { c with maxGoroutines := m }

/-- Use (chain.go:87): appends one interceptor. -/
def Chain.Use (c : Chain I O) (itc : Interceptor I O) : Chain I O :=
  { c with interceptors := c.interceptors ++ [itc] }

/-- Serial (chain.go:93): appends one sequential block. -/
def Chain.Serial (c : Chain I O) (fns : List (Step I O)) : Chain I O :=
  { c with fns := c.fns ++ [Block.serial fns] }

/-- Parallel (chain.go:107): appends one parallel block. -/
def Chain.Parallel (c : Chain I O) (fns : List (Step I O)) : Chain I O :=
  { c with fns := c.fns ++ [Block.parallel fns] }

/-- wrapError (chain.go:166): fmt.Errorf with the step's name and %w. -/
def wrapError (name : String) (e : GoError) : GoError := GoError.wrap name e

/-- The innermost handler buildInterceptors (chain.go:148-158) places around
a step: if the context is already done, short-circuit with the wrapped
context error without invoking the step; otherwise run the step and wrap a
non-nil failure with the step's name. -/
def baseHandler (st : Step I O) : HandleFunc I O := fun ctx i o =>
  match ctx with
  | some ce => (o, [], .fail (wrapError st.name ce))
  | none =>
    match st.fn none i o with
    | (o1, ev, .ok) => (o1, ev, .ok)
    | (o1, ev, .fail e) => (o1, ev, .fail (wrapError st.name e))
    | (o1, ev, .panicked m) => (o1, ev, .panicked m)

/-- buildInterceptors (chain.go:147-163): wrap the base handler, applying
the interceptor list from last-registered to first-registered, so the
first-registered interceptor ends up outermost. -/
def buildInterceptors (itcs : List (Interceptor I O)) (st : Step I O) : HandleFunc I O :=
  itcs.foldr (fun itc h => itc h) (baseHandler st)

/-- Body of the closure Serial appends (chain.go:94-102): run each step's
wrapped handler in order, returning the first non-nil error; a panic unwinds
out. -/
def runSerialSteps (itcs : List (Interceptor I O)) (ctx : Ctx) (i : I) :
    List (Step I O) → O → O × List Event × Outcome
  | [], o => (o, [], .ok)
  | st :: rest, o =>
    match buildInterceptors itcs st ctx i o with
    | (o1, ev, .ok) =>
      match runSerialSteps itcs ctx i rest o1 with
      | (o2, ev2, r) => (o2, ev ++ ev2, r)
    | (o1, ev, .fail e) => (o1, ev, .fail e)
    | (o1, ev, .panicked m) => (o1, ev, .panicked m)

/-- Linearized run of the goroutines a parallel block launches
(chain.go:114-121).  `firstErr` is the error g.Wait will report; once it is
set the errgroup's derived context is cancelled, so a later handler observes
a done context (the parent's own error when the parent was already done,
context.Canceled otherwise).  A panic in a goroutine crashes the process. -/
def runParallelSteps (itcs : List (Interceptor I O)) (parent : Ctx) (i : I) :
    List (Step I O) → O → Option GoError → O × List Event × Outcome
  | [], o, firstErr =>
    (o, [], match firstErr with | some e => .fail e | none => .ok)
  | st :: rest, o, firstErr =>
    match buildInterceptors itcs st
        (match parent with
         | some ce => some ce
         | none => match firstErr with | some _ => some .canceled | none => none)
        i o with
    | (o1, ev, .panicked m) => (o1, ev, .panicked m)
    | (o1, ev, .ok) =>
      match runParallelSteps itcs parent i rest o1 firstErr with
      | (o2, ev2, r) => (o2, ev ++ ev2, r)
    | (o1, ev, .fail e) =>
      match runParallelSteps itcs parent i rest o1
          (match firstErr with | some e0 => some e0 | none => some e) with
      | (o2, ev2, r) => (o2, ev ++ ev2, r)

/-- Run one block.  A parallel block applies g.SetLimit(c.maxGoroutines)
only when the chain's maxGoroutines is positive (chain.go:111-113), recorded
as a setLimit event; otherwise the errgroup is unbounded. -/
def runBlock (itcs : List (Interceptor I O)) (maxG : Int) (ctx : Ctx) (i : I)
    (b : Block I O) (o : O) : O × List Event × Outcome :=
  match b with
  | .serial fns => runSerialSteps itcs ctx i fns o
  | .parallel fns =>
    match runParallelSteps itcs ctx i fns o none with
    | (o1, ev, r) => (o1, (if 0 < maxG then [Event.setLimit maxG] else []) ++ ev, r)

/-- The loop of Execute (chain.go:135-141): run the blocks in registration
order, stopping at the first non-nil error. -/
def runBlocks (itcs : List (Interceptor I O)) (maxG : Int) (ctx : Ctx) (i : I) :
    List (Block I O) → O → O × List Event × Outcome
  | [], o => (o, [], .ok)
  | b :: rest, o =>
    match runBlock itcs maxG ctx i b o with
    | (o1, ev, .ok) =>
      match runBlocks itcs maxG ctx i rest o1 with
      | (o2, ev2, r) => (o2, ev ++ ev2, r)
    | (o1, ev, .fail e) => (o1, ev, .fail e)
    | (o1, ev, .panicked m) => (o1, ev, .panicked m)

/-- What Execute produces: the output pointer and error of a normal return,
or a process-crashing panic. -/
inductive ExecResult (O : Type) where
  | done (out : Ptr O) (err : Option GoError)
  | panicked (payload : String)
deriving DecidableEq, Repr

/-- Execute (chain.go:127-144): run the blocks against the chain's context
and Args; on a block failure return c.args.output together with
errors.Unwrap of the block's error, on success return c.args.output and nil.
The events of the run are returned alongside. -/
def Chain.Execute (c : Chain I O) : List Event × ExecResult O :=
  match runBlocks c.interceptors c.maxGoroutines c.ctx c.args.input.val c.fns
      c.args.output.val with
  | (o1, ev, .ok) => (ev, .done { c.args.output with val := o1 } none)
  | (o1, ev, .fail e) => (ev, .done { c.args.output with val := o1 } (goUnwrap e))
  | (o1, ev, .panicked m) => (ev, .panicked m)

/-- RecoverInterceptor (src/interceptor.go:10-24): if the wrapped call
panics, recover and return fmt.Errorf("panic in execution: %v", r) as a
normal error; a normal return, nil or not, passes through untouched. -/
def RecoverInterceptor {I O : Type} : Interceptor I O := fun fn ctx i o =>
  match fn ctx i o with
  | (o1, ev, .panicked m) => (o1, ev, .fail (.base ("panic in execution: " ++ m)))
  | r => r

/-- LogInterceptor (src/unnamed/part_002:203-218): slog a before-event,
invoke the wrapped call, then slog a warn-event on error or an after-event
on success.  The logs are not deferred, so when the wrapped call panics only
the before-event is observed. -/
def LogInterceptor {I O : Type} : Interceptor I O := fun fn ctx i o =>
  match fn ctx i o with
  | (o1, ev, .ok) => (o1, .logBefore :: (ev ++ [Event.logAfter]), .ok)
  | (o1, ev, .fail e) => (o1, .logBefore :: (ev ++ [Event.logWarn]), .fail e)
  | (o1, ev, .panicked m) => (o1, .logBefore :: ev, .panicked m)

/-- Model of a user interceptor of the usual before/after shape: record an
entry mark, invoke the wrapped callable, record an exit mark on normal
return (a panic unwinds past the exit mark). -/
def traceInterceptor {I O : Type} (t : String) : Interceptor I O := fun fn ctx i o =>
  match fn ctx i o with
  | (o1, ev, .panicked m) => (o1, .tag (t ++ "-before") :: ev, .panicked m)
  | (o1, ev, r) => (o1, .tag (t ++ "-before") :: (ev ++ [Event.tag (t ++ "-after")]), r)

/-- One builder call made on a chain before Execute. -/
inductive BuildOp (I O : Type) where
  | withContext (ctx : Ctx)
  | withTimeout (d : Nat)
  | withMaxGoroutines (n : Int)
  | use (itc : Interceptor I O)
  | serial (fns : List (Step I O))
  | parallel (fns : List (Step I O))

/-- Apply one builder call. -/
def applyOp (c : Chain I O) : BuildOp I O → Chain I O
  | .withContext ctx => c.WithContext ctx
  | .withTimeout d => c.WithTimeout d
  | .withMaxGoroutines n => c.WithMaxGoroutines n
  | .use itc => c.Use itc
  | .serial fns => c.Serial fns
  | .parallel fns => c.Parallel fns

/-- A chain as the caller builds it: New followed by any sequence of
builder calls. -/
def buildChain (input : Ptr I) (output : Ptr O) (ops : List (BuildOp I O)) : Chain I O :=
  ops.foldl applyOp (New input output)

/-- Whether a builder call registers an execution block. -/
def isBlockOp : BuildOp I O → Bool
  | .serial _ => true
  | .parallel _ => true
  | _ => false

/-- The interceptors a sequence of builder calls registers, in order. -/
def usesOf : List (BuildOp I O) → List (Interceptor I O)
  | [] => []
  | .use itc :: rest => itc :: usesOf rest
  | .withContext _ :: rest => usesOf rest
  | .withTimeout _ :: rest => usesOf rest
  | .withMaxGoroutines _ :: rest => usesOf rest
  | .serial _ :: rest => usesOf rest
  | .parallel _ :: rest => usesOf rest

/-- The blocks a sequence of builder calls registers, in order. -/
def blocksOf : List (BuildOp I O) → List (Block I O)
  | [] => []
  | .serial fns :: rest => Block.serial fns :: blocksOf rest
  | .parallel fns :: rest => Block.parallel fns :: blocksOf rest
  | .withContext _ :: rest => blocksOf rest
  | .withTimeout _ :: rest => blocksOf rest
  | .withMaxGoroutines _ :: rest => blocksOf rest
  | .use _ :: rest => blocksOf rest

/-- Steps of a block. -/
def blockSteps : Block I O → List (Step I O)
  | .serial fns => fns
  | .parallel fns => fns

/-- Every block of the list is a Sequential block. -/
def allSerial (bs : List (Block I O)) : Prop :=
  ∀ b ∈ bs, ∃ fns, b = Block.serial fns

/-- Every installed interceptor is one of the repository's built-in ones. -/
def builtinOnly (itcs : List (Interceptor I O)) : Prop :=
  ∀ itc ∈ itcs, itc = RecoverInterceptor ∨ itc = LogInterceptor

/-- Left-to-right fold of the raw step functions over the shared output
state, stopping at the first non-nil error — the spec's description of
sequential execution (§8, first property). -/
def foldHandleFuncs (i : I) : List (Step I O) → O → O × List Event × Outcome
  | [], o => (o, [], .ok)
  | st :: rest, o =>
    match st.fn none i o with
    | (o1, ev, .ok) =>
      match foldHandleFuncs i rest o1 with
      | (o2, ev2, r) => (o2, ev ++ ev2, r)
    | (o1, ev, .fail e) => (o1, ev, .fail e)
    | (o1, ev, .panicked m) => (o1, ev, .panicked m)

/-- Replace a step's function, keeping its registration name. -/
def reStep (g : Step I O → HandleFunc I O) (st : Step I O) : Step I O :=
  ⟨st.name, g st⟩

/-- Replace every step function of a block, keeping names and structure. -/
def reBlock (g : Step I O → HandleFunc I O) : Block I O → Block I O
  | .serial fns => .serial (fns.map (reStep g))
  | .parallel fns => .parallel (fns.map (reStep g))

/-- All steps of a block list, in registration order. -/
def stepsOfBlocks : List (Block I O) → List (Step I O)
  | [] => []
  | b :: rest => blockSteps b ++ stepsOfBlocks rest

theorem buildInterceptors_nil (st : Step I O) :
    buildInterceptors [] st = baseHandler st := rfl

theorem buildInterceptors_cons (itc : Interceptor I O) (itcs : List (Interceptor I O))
    (st : Step I O) :
    buildInterceptors (itc :: itcs) st = itc (buildInterceptors itcs st) := rfl

theorem goUnwrap_wrap (n : String) (e : GoError) : goUnwrap (.wrap n e) = some e := rfl

theorem runSerialSteps_append (itcs : List (Interceptor I O)) (ctx : Ctx) (i : I)
    (l1 l2 : List (Step I O)) (o : O) :
    runSerialSteps itcs ctx i (l1 ++ l2) o =
      match runSerialSteps itcs ctx i l1 o with
      | (o1, ev, .ok) =>
        match runSerialSteps itcs ctx i l2 o1 with
        | (o2, ev2, r) => (o2, ev ++ ev2, r)
      | (o1, ev, .fail e) => (o1, ev, .fail e)
      | (o1, ev, .panicked m) => (o1, ev, .panicked m) := by
  induction l1 generalizing o with
  | nil => rcases h : runSerialSteps itcs ctx i l2 o with ⟨o2, ev2, r⟩
           simp [runSerialSteps, h]
  | cons st rest ih =>
    rcases h : buildInterceptors itcs st ctx i o with ⟨o1, ev, r⟩
    cases r with
    | ok =>
      rcases h2 : runSerialSteps itcs ctx i rest o1 with ⟨o2, ev2, r2⟩
      cases r2 with
      | ok =>
        rcases h3 : runSerialSteps itcs ctx i l2 o2 with ⟨o3, ev3, r3⟩
        simp [runSerialSteps, h, ih, h2, h3, List.append_assoc]
      | fail e => simp [runSerialSteps, h, ih, h2]
      | panicked m => simp [runSerialSteps, h, ih, h2]
    | fail e => simp [runSerialSteps, h]
    | panicked m => simp [runSerialSteps, h]

theorem runBlocks_append (itcs : List (Interceptor I O)) (maxG : Int) (ctx : Ctx) (i : I)
    (l1 l2 : List (Block I O)) (o : O) :
    runBlocks itcs maxG ctx i (l1 ++ l2) o =
      match runBlocks itcs maxG ctx i l1 o with
      | (o1, ev, .ok) =>
        match runBlocks itcs maxG ctx i l2 o1 with
        | (o2, ev2, r) => (o2, ev ++ ev2, r)
      | (o1, ev, .fail e) => (o1, ev, .fail e)
      | (o1, ev, .panicked m) => (o1, ev, .panicked m) := by
  induction l1 generalizing o with
  | nil => rcases h : runBlocks itcs maxG ctx i l2 o with ⟨o2, ev2, r⟩
           simp [runBlocks, h]
  | cons b rest ih =>
    rcases h : runBlock itcs maxG ctx i b o with ⟨o1, ev, r⟩
    cases r with
    | ok =>
      rcases h2 : runBlocks itcs maxG ctx i rest o1 with ⟨o2, ev2, r2⟩
      cases r2 with
      | ok =>
        rcases h3 : runBlocks itcs maxG ctx i l2 o2 with ⟨o3, ev3, r3⟩
        simp [runBlocks, h, ih, h2, h3, List.append_assoc]
      | fail e => simp [runBlocks, h, ih, h2]
      | panicked m => simp [runBlocks, h, ih, h2]
    | fail e => simp [runBlocks, h]
    | panicked m => simp [runBlocks, h]

/-- A stack of built-in interceptors passes a failure of the inner handler
through unchanged (state and error), possibly adding log events. -/
theorem builtin_preserves_fail (itcs : List (Interceptor I O)) (hb : builtinOnly itcs)
    (st : Step I O) (ctx : Ctx) (i : I) (o o1 : O) (ev1 : List Event) (e : GoError)
    (h : baseHandler st ctx i o = (o1, ev1, .fail e)) :
    ∃ ev, buildInterceptors itcs st ctx i o = (o1, ev, .fail e) := by
  induction itcs with
  | nil => exact ⟨ev1, h⟩
  | cons itc rest ih =>
    obtain ⟨ev, hev⟩ := ih (fun x hx => hb x (List.mem_cons_of_mem _ hx))
    rcases hb itc (List.mem_cons_self _ _) with hitc | hitc <;> subst hitc
    · exact ⟨ev, by simp [buildInterceptors_cons, RecoverInterceptor, hev]⟩
    · exact ⟨.logBefore :: (ev ++ [Event.logWarn]),
        by simp [buildInterceptors_cons, LogInterceptor, hev]⟩

/-- A stack of built-in interceptors passes a success of the inner handler
through unchanged, possibly adding log events. -/
theorem builtin_preserves_ok (itcs : List (Interceptor I O)) (hb : builtinOnly itcs)
    (st : Step I O) (ctx : Ctx) (i : I) (o o1 : O) (ev1 : List Event)
    (h : baseHandler st ctx i o = (o1, ev1, .ok)) :
    ∃ ev, buildInterceptors itcs st ctx i o = (o1, ev, .ok) := by
  induction itcs with
  | nil => exact ⟨ev1, h⟩
  | cons itc rest ih =>
    obtain ⟨ev, hev⟩ := ih (fun x hx => hb x (List.mem_cons_of_mem _ hx))
    rcases hb itc (List.mem_cons_self _ _) with hitc | hitc <;> subst hitc
    · exact ⟨ev, by simp [buildInterceptors_cons, RecoverInterceptor, hev]⟩
    · exact ⟨.logBefore :: (ev ++ [Event.logAfter]),
        by simp [buildInterceptors_cons, LogInterceptor, hev]⟩

/-- Under a done context the built handler fails with the wrapped context
error, leaves the state untouched, and never consults the step. -/
theorem builtin_cancelled (itcs : List (Interceptor I O)) (hb : builtinOnly itcs)
    (st : Step I O) (ce : GoError) (i : I) (o : O) :
    ∃ ev, buildInterceptors itcs st (some ce) i o = (o, ev, .fail (wrapError st.name ce)) :=
  builtin_preserves_fail itcs hb st (some ce) i o o [] _ rfl

/-- Under a done context the built handler's behavior does not depend on the
step's function, only on its name: the step body is never invoked. -/
theorem builtin_cancelled_fn_irrel (itcs : List (Interceptor I O)) (hb : builtinOnly itcs)
    (n : String) (f g : HandleFunc I O) (ce : GoError) (i : I) (o : O) :
    buildInterceptors itcs ⟨n, f⟩ (some ce) i o = buildInterceptors itcs ⟨n, g⟩ (some ce) i o := by
  induction itcs with
  | nil => rfl
  | cons itc rest ih =>
    have ih2 := ih (fun x hx => hb x (List.mem_cons_of_mem _ hx))
    rcases hb itc (List.mem_cons_self _ _) with hitc | hitc <;> subst hitc <;>
      simp [buildInterceptors_cons, RecoverInterceptor, LogInterceptor, ih2]

/-- Under a done context a serial run stops at its first step, failing with
that step's wrapped context error and leaving the state untouched. -/
theorem runSerialSteps_cancelled (itcs : List (Interceptor I O)) (hb : builtinOnly itcs)
    (ce : GoError) (i : I) (st : Step I O) (rest : List (Step I O)) (o : O) :
    ∃ ev, runSerialSteps itcs (some ce) i (st :: rest) o
      = (o, ev, .fail (wrapError st.name ce)) := by
  obtain ⟨ev, hev⟩ := builtin_cancelled itcs hb st ce i o
  exact ⟨ev, by simp [runSerialSteps, hev]⟩

/-- Once the errgroup has a first error, under a done parent context the
remaining handlers all fail without touching the state, and g.Wait keeps the
first error. -/
theorem runParallelSteps_cancelled_keep (itcs : List (Interceptor I O))
    (hb : builtinOnly itcs) (ce : GoError) (i : I) (fns : List (Step I O)) (o : O)
    (e0 : GoError) :
    ∃ ev, runParallelSteps itcs (some ce) i fns o (some e0) = (o, ev, .fail e0) := by
  induction fns generalizing o with
  | nil => exact ⟨[], rfl⟩
  | cons st rest ih =>
    obtain ⟨ev, hev⟩ := builtin_cancelled itcs hb st ce i o
    obtain ⟨ev2, hev2⟩ := ih o
    exact ⟨ev ++ ev2, by simp [runParallelSteps, hev, hev2]⟩

/-- Under a done parent context a nonempty parallel block reports the first
handler's wrapped context error and leaves the state untouched. -/
theorem runParallelSteps_cancelled_first (itcs : List (Interceptor I O))
    (hb : builtinOnly itcs) (ce : GoError) (i : I) (st : Step I O)
    (rest : List (Step I O)) (o : O) :
    ∃ ev, runParallelSteps itcs (some ce) i (st :: rest) o none
      = (o, ev, .fail (wrapError st.name ce)) := by
  obtain ⟨ev, hev⟩ := builtin_cancelled itcs hb st ce i o
  obtain ⟨ev2, hev2⟩ :=
    runParallelSteps_cancelled_keep itcs hb ce i rest o (wrapError st.name ce)
  exact ⟨ev ++ ev2, by simp [runParallelSteps, hev, hev2]⟩

/-- Under a done context, as soon as some block contains a step the block
loop fails with a context error wrapped with some step's name, and the
output is never touched. -/
theorem runBlocks_cancelled (itcs : List (Interceptor I O)) (hb : builtinOnly itcs)
    (maxG : Int) (ce : GoError) (i : I) (blocks : List (Block I O)) (o : O)
    (hne : ∃ b ∈ blocks, blockSteps b ≠ []) :
    ∃ ev n, runBlocks itcs maxG (some ce) i blocks o = (o, ev, .fail (wrapError n ce)) := by
  induction blocks generalizing o with
  | nil => obtain ⟨b, hmem, _⟩ := hne; exact absurd hmem (List.not_mem_nil b)
  | cons b rest ih =>
    cases b with
    | serial fns =>
      cases fns with
      | nil =>
        have hne2 : ∃ b ∈ rest, blockSteps b ≠ [] := by
          obtain ⟨b2, hmem, hb2⟩ := hne
          rcases List.mem_cons.mp hmem with h | h
          · subst h; simp [blockSteps] at hb2
          · exact ⟨b2, h, hb2⟩
        obtain ⟨ev, n, hev⟩ := ih o hne2
        exact ⟨ev, n, by simp [runBlocks, runBlock, runSerialSteps, hev]⟩
      | cons st fns2 =>
        obtain ⟨ev, hev⟩ := runSerialSteps_cancelled itcs hb ce i st fns2 o
        exact ⟨ev, st.name, by simp [runBlocks, runBlock, hev]⟩
    | parallel fns =>
      cases fns with
      | nil =>
        have hne2 : ∃ b ∈ rest, blockSteps b ≠ [] := by
          obtain ⟨b2, hmem, hb2⟩ := hne
          rcases List.mem_cons.mp hmem with h | h
          · subst h; simp [blockSteps] at hb2
          · exact ⟨b2, h, hb2⟩
        obtain ⟨ev, n, hev⟩ := ih o hne2
        refine ⟨(if 0 < maxG then [Event.setLimit maxG] else []) ++ ev, n, ?_⟩
        simp [runBlocks, runBlock, runParallelSteps, hev]
      | cons st fns2 =>
        obtain ⟨ev, hev⟩ := runParallelSteps_cancelled_first itcs hb ce i st fns2 o
        exact ⟨(if 0 < maxG then [Event.setLimit maxG] else []) ++ ev, st.name,
          by simp [runBlocks, runBlock, hev]⟩

/-- Under a done context a serial run's behavior does not depend on any
step's function body. -/
theorem runSerialSteps_cancelled_fn_irrel (itcs : List (Interceptor I O))
    (hb : builtinOnly itcs) (ce : GoError) (i : I) (g : Step I O → HandleFunc I O)
    (fns : List (Step I O)) (o : O) :
    runSerialSteps itcs (some ce) i (fns.map (reStep g)) o
      = runSerialSteps itcs (some ce) i fns o := by
  induction fns generalizing o with
  | nil => rfl
  | cons st rest ih =>
    have hre : buildInterceptors itcs (reStep g st) (some ce) i o
        = buildInterceptors itcs st (some ce) i o := by
      have := builtin_cancelled_fn_irrel itcs hb st.name (g st) st.fn ce i o
      simpa [reStep] using this
    rcases h : buildInterceptors itcs st (some ce) i o with ⟨o1, ev, r⟩
    cases r <;> simp [runSerialSteps, h, hre, ih]

/-- Under a done parent context a parallel run's behavior does not depend on
any step's function body. -/
theorem runParallelSteps_cancelled_fn_irrel (itcs : List (Interceptor I O))
    (hb : builtinOnly itcs) (ce : GoError) (i : I) (g : Step I O → HandleFunc I O)
    (fns : List (Step I O)) (o : O) (fe : Option GoError) :
    runParallelSteps itcs (some ce) i (fns.map (reStep g)) o fe
      = runParallelSteps itcs (some ce) i fns o fe := by
  induction fns generalizing o fe with
  | nil => rfl
  | cons st rest ih =>
    have hre : buildInterceptors itcs (reStep g st) (some ce) i o
        = buildInterceptors itcs st (some ce) i o := by
      have := builtin_cancelled_fn_irrel itcs hb st.name (g st) st.fn ce i o
      simpa [reStep] using this
    rcases h : buildInterceptors itcs st (some ce) i o with ⟨o1, ev, r⟩
    cases r <;> simp [runParallelSteps, h, hre, ih]

/-- Under a done context the block loop's behavior does not depend on any
step's function body. -/
theorem runBlocks_cancelled_fn_irrel (itcs : List (Interceptor I O))
    (hb : builtinOnly itcs) (maxG : Int) (ce : GoError) (i : I)
    (g : Step I O → HandleFunc I O) (blocks : List (Block I O)) (o : O) :
    runBlocks itcs maxG (some ce) i (blocks.map (reBlock g)) o
      = runBlocks itcs maxG (some ce) i blocks o := by
  induction blocks generalizing o with
  | nil => rfl
  | cons b rest ih =>
    have hblock : runBlock itcs maxG (some ce) i (reBlock g b) o
        = runBlock itcs maxG (some ce) i b o := by
      cases b with
      | serial fns =>
        simp [reBlock, runBlock, runSerialSteps_cancelled_fn_irrel itcs hb ce i g fns o]
      | parallel fns =>
        simp [reBlock, runBlock,
          runParallelSteps_cancelled_fn_irrel itcs hb ce i g fns o none]
    rcases h : runBlock itcs maxG (some ce) i b o with ⟨o1, ev, r⟩
    cases r <;> simp [runBlocks, h, hblock, ih]

theorem foldHandleFuncs_append (i : I) (l1 l2 : List (Step I O)) (o : O) :
    foldHandleFuncs i (l1 ++ l2) o =
      match foldHandleFuncs i l1 o with
      | (o1, ev, .ok) =>
        match foldHandleFuncs i l2 o1 with
        | (o2, ev2, r) => (o2, ev ++ ev2, r)
      | (o1, ev, .fail e) => (o1, ev, .fail e)
      | (o1, ev, .panicked m) => (o1, ev, .panicked m) := by
  induction l1 generalizing o with
  | nil => rcases h : foldHandleFuncs i l2 o with ⟨o2, ev2, r⟩
           simp [foldHandleFuncs, h]
  | cons st rest ih =>
    rcases h : st.fn none i o with ⟨o1, ev, r⟩
    cases r with
    | ok =>
      rcases h2 : foldHandleFuncs i rest o1 with ⟨o2, ev2, r2⟩
      cases r2 with
      | ok =>
        rcases h3 : foldHandleFuncs i l2 o2 with ⟨o3, ev3, r3⟩
        simp [foldHandleFuncs, h, ih, h2, h3, List.append_assoc]
      | fail e => simp [foldHandleFuncs, h, ih, h2]
      | panicked m => simp [foldHandleFuncs, h, ih, h2]
    | fail e => simp [foldHandleFuncs, h]
    | panicked m => simp [foldHandleFuncs, h]

/-- With no interceptors installed, a serial run is the left-to-right fold of
the raw step functions over the state, except that a non-nil error comes out
wrapped with the failing step's name. -/
theorem runSerialSteps_vs_fold (i : I) (fns : List (Step I O)) (o : O) :
    (∀ o1 ev, foldHandleFuncs i fns o = (o1, ev, .ok) →
      runSerialSteps [] none i fns o = (o1, ev, .ok)) ∧
    (∀ o1 ev e, foldHandleFuncs i fns o = (o1, ev, .fail e) →
      ∃ n, runSerialSteps [] none i fns o = (o1, ev, .fail (GoError.wrap n e))) ∧
    (∀ o1 ev m, foldHandleFuncs i fns o = (o1, ev, .panicked m) →
      runSerialSteps [] none i fns o = (o1, ev, .panicked m)) := by
  induction fns generalizing o with
  | nil =>
    refine ⟨?_, ?_, ?_⟩
    · intro o1 ev h
      simp only [foldHandleFuncs, Prod.mk.injEq] at h
      obtain ⟨rfl, rfl, -⟩ := h
      rfl
    · intro o1 ev e h
      simp [foldHandleFuncs] at h
    · intro o1 ev m h
      simp [foldHandleFuncs] at h
  | cons st rest ih =>
    rcases hst : st.fn none i o with ⟨oa, eva, r⟩
    cases r with
    | ok =>
      have hb2 : buildInterceptors [] st none i o = (oa, eva, .ok) := by
        simp [buildInterceptors_nil, baseHandler, hst]
      obtain ⟨ih1, ih2, ih3⟩ := ih oa
      refine ⟨?_, ?_, ?_⟩
      · intro o1 ev h
        simp only [foldHandleFuncs, hst] at h
        rcases h2 : foldHandleFuncs i rest oa with ⟨ob, evb, r2⟩
        rw [h2] at h
        cases r2 with
        | ok =>
          simp only [Prod.mk.injEq] at h
          obtain ⟨rfl, rfl, -⟩ := h
          simp [runSerialSteps, hb2, ih1 ob evb h2]
        | fail e => simp at h
        | panicked m => simp at h
      · intro o1 ev e h
        simp only [foldHandleFuncs, hst] at h
        rcases h2 : foldHandleFuncs i rest oa with ⟨ob, evb, r2⟩
        rw [h2] at h
        cases r2 with
        | ok => simp at h
        | fail e2 =>
          simp only [Prod.mk.injEq, Outcome.fail.injEq] at h
          obtain ⟨rfl, rfl, rfl⟩ := h
          obtain ⟨n, hn⟩ := ih2 ob evb e2 h2
          exact ⟨n, by simp [runSerialSteps, hb2, hn]⟩
        | panicked m => simp at h
      · intro o1 ev m h
        simp only [foldHandleFuncs, hst] at h
        rcases h2 : foldHandleFuncs i rest oa with ⟨ob, evb, r2⟩
        rw [h2] at h
        cases r2 with
        | ok => simp at h
        | fail e2 => simp at h
        | panicked m2 =>
          simp only [Prod.mk.injEq, Outcome.panicked.injEq] at h
          obtain ⟨rfl, rfl, rfl⟩ := h
          simp [runSerialSteps, hb2, ih3 ob evb m2 h2]
    | fail e =>
      have hb2 : buildInterceptors [] st none i o
          = (oa, eva, .fail (wrapError st.name e)) := by
        simp [buildInterceptors_nil, baseHandler, hst]
      refine ⟨?_, ?_, ?_⟩
      · intro o1 ev h
        simp [foldHandleFuncs, hst] at h
      · intro o1 ev e2 h
        simp only [foldHandleFuncs, hst, Prod.mk.injEq, Outcome.fail.injEq] at h
        obtain ⟨rfl, rfl, rfl⟩ := h
        exact ⟨st.name, by simp [runSerialSteps, hb2, wrapError]⟩
      · intro o1 ev m h
        simp [foldHandleFuncs, hst] at h
    | panicked m =>
      have hb2 : buildInterceptors [] st none i o = (oa, eva, .panicked m) := by
        simp [buildInterceptors_nil, baseHandler, hst]
      refine ⟨?_, ?_, ?_⟩
      · intro o1 ev h
        simp [foldHandleFuncs, hst] at h
      · intro o1 ev e h
        simp [foldHandleFuncs, hst] at h
      · intro o1 ev m2 h
        simp only [foldHandleFuncs, hst, Prod.mk.injEq, Outcome.panicked.injEq] at h
        obtain ⟨rfl, rfl, rfl⟩ := h
        simp [runSerialSteps, hb2]

/-- With no interceptors and a live context, running a list of Sequential
blocks is the left-to-right fold of all their step functions, in
registration order, over the shared state. -/
theorem runBlocks_serial_vs_fold (maxG : Int) (i : I) (blocks : List (Block I O))
    (hs : allSerial blocks) (o : O) :
    (∀ o1 ev, foldHandleFuncs i (stepsOfBlocks blocks) o = (o1, ev, .ok) →
      runBlocks [] maxG none i blocks o = (o1, ev, .ok)) ∧
    (∀ o1 ev e, foldHandleFuncs i (stepsOfBlocks blocks) o = (o1, ev, .fail e) →
      ∃ n, runBlocks [] maxG none i blocks o = (o1, ev, .fail (GoError.wrap n e))) ∧
    (∀ o1 ev m, foldHandleFuncs i (stepsOfBlocks blocks) o = (o1, ev, .panicked m) →
      runBlocks [] maxG none i blocks o = (o1, ev, .panicked m)) := by
  induction blocks generalizing o with
  | nil =>
    refine ⟨?_, ?_, ?_⟩
    · intro o1 ev h
      simp only [stepsOfBlocks, foldHandleFuncs, Prod.mk.injEq] at h
      obtain ⟨rfl, rfl, -⟩ := h
      rfl
    · intro o1 ev e h
      simp [stepsOfBlocks, foldHandleFuncs] at h
    · intro o1 ev m h
      simp [stepsOfBlocks, foldHandleFuncs] at h
  | cons b rest ih =>
    obtain ⟨fns, rfl⟩ := hs b (List.mem_cons_self _ _)
    have hrest : allSerial rest := fun b2 hb2 => hs b2 (List.mem_cons_of_mem _ hb2)
    have hsteps : stepsOfBlocks (Block.serial fns :: rest)
        = fns ++ stepsOfBlocks rest := rfl
    obtain ⟨s1, s2, s3⟩ := runSerialSteps_vs_fold i fns o
    rcases hf : foldHandleFuncs i fns o with ⟨oa, eva, r⟩
    cases r with
    | ok =>
      obtain ⟨ih1, ih2, ih3⟩ := ih hrest oa
      have hser := s1 oa eva hf
      refine ⟨?_, ?_, ?_⟩
      · intro o1 ev h
        rcases h2 : foldHandleFuncs i (stepsOfBlocks rest) oa with ⟨ob, evb, r2⟩
        rw [hsteps] at h
        simp only [foldHandleFuncs_append, hf, h2] at h
        cases r2 with
        | ok =>
          simp only [Prod.mk.injEq] at h
          obtain ⟨rfl, rfl, -⟩ := h
          simp [runBlocks, runBlock, hser, ih1 ob evb h2]
        | fail e => simp at h
        | panicked m => simp at h
      · intro o1 ev e h
        rcases h2 : foldHandleFuncs i (stepsOfBlocks rest) oa with ⟨ob, evb, r2⟩
        rw [hsteps] at h
        simp only [foldHandleFuncs_append, hf, h2] at h
        cases r2 with
        | ok => simp at h
        | fail e2 =>
          simp only [Prod.mk.injEq, Outcome.fail.injEq] at h
          obtain ⟨rfl, rfl, rfl⟩ := h
          obtain ⟨n, hn⟩ := ih2 ob evb e2 h2
          exact ⟨n, by simp [runBlocks, runBlock, hser, hn]⟩
        | panicked m => simp at h
      · intro o1 ev m h
        rcases h2 : foldHandleFuncs i (stepsOfBlocks rest) oa with ⟨ob, evb, r2⟩
        rw [hsteps] at h
        simp only [foldHandleFuncs_append, hf, h2] at h
        cases r2 with
        | ok => simp at h
        | fail e2 => simp at h
        | panicked m2 =>
          simp only [Prod.mk.injEq, Outcome.panicked.injEq] at h
          obtain ⟨rfl, rfl, rfl⟩ := h
          simp [runBlocks, runBlock, hser, ih3 ob evb m2 h2]
    | fail e =>
      refine ⟨?_, ?_, ?_⟩
      · intro o1 ev h
        rw [hsteps] at h
        simp only [foldHandleFuncs_append, hf] at h
        simp at h
      · intro o1 ev e2 h
        rw [hsteps] at h
        simp only [foldHandleFuncs_append, hf, Prod.mk.injEq, Outcome.fail.injEq] at h
        obtain ⟨rfl, rfl, rfl⟩ := h
        obtain ⟨n, hn⟩ := s2 oa eva e hf
        exact ⟨n, by simp [runBlocks, runBlock, hn]⟩
      · intro o1 ev m h
        rw [hsteps] at h
        simp only [foldHandleFuncs_append, hf] at h
        simp at h
    | panicked m =>
      refine ⟨?_, ?_, ?_⟩
      · intro o1 ev h
        rw [hsteps] at h
        simp only [foldHandleFuncs_append, hf] at h
        simp at h
      · intro o1 ev e h
        rw [hsteps] at h
        simp only [foldHandleFuncs_append, hf] at h
        simp at h
      · intro o1 ev m2 h
        rw [hsteps] at h
        simp only [foldHandleFuncs_append, hf, Prod.mk.injEq, Outcome.panicked.injEq] at h
        obtain ⟨rfl, rfl, rfl⟩ := h
        simp [runBlocks, runBlock, s3 oa eva m hf]

/-- A block-registering builder call commutes with any non-block builder
call: Serial and Parallel only append to c.fns, every other builder method
only writes a different field. -/
theorem applyOp_block_comm (c : Chain I O) (bop nop : BuildOp I O)
    (hbop : isBlockOp bop = true) (hnop : isBlockOp nop = false) :
    applyOp (applyOp c bop) nop = applyOp (applyOp c nop) bop := by
  cases bop <;> cases nop <;> first
    | rfl
    | simp [isBlockOp] at hbop hnop

theorem foldl_nonblock_comm (l : List (BuildOp I O)) (hl : ∀ x ∈ l, isBlockOp x = false)
    (c : Chain I O) (bop : BuildOp I O) (hbop : isBlockOp bop = true) :
    List.foldl applyOp (applyOp c bop) l = applyOp (List.foldl applyOp c l) bop := by
  induction l generalizing c with
  | nil => rfl
  | cons x rest ih =>
    simp only [List.foldl_cons]
    rw [applyOp_block_comm c bop x hbop (hl x (List.mem_cons_self _ _))]
    exact ih (fun y hy => hl y (List.mem_cons_of_mem _ hy)) (applyOp c x)

theorem foldl_applyOp_partition (ops : List (BuildOp I O)) (c : Chain I O) :
    List.foldl applyOp c ops
      = List.foldl applyOp c
          (ops.filter (fun x => !isBlockOp x) ++ ops.filter (fun x => isBlockOp x)) := by
  induction ops generalizing c with
  | nil => rfl
  | cons op rest ih =>
    by_cases hop : isBlockOp op = true
    · have hfn : (op :: rest).filter (fun x => !isBlockOp x)
          = rest.filter (fun x => !isBlockOp x) := by
        simp [List.filter_cons, hop]
      have hfb : (op :: rest).filter (fun x => isBlockOp x)
          = op :: rest.filter (fun x => isBlockOp x) := by
        simp [List.filter_cons, hop]
      rw [hfn, hfb, List.foldl_cons, ih (applyOp c op), List.foldl_append,
        List.foldl_append, List.foldl_cons]
      rw [foldl_nonblock_comm (rest.filter (fun x => !isBlockOp x))
        (fun y hy => by
          have := List.of_mem_filter hy
          simpa using this) c op hop]
    · have hop2 : isBlockOp op = false := by
        cases h : isBlockOp op
        · rfl
        · exact absurd h hop
      have hfn : (op :: rest).filter (fun x => !isBlockOp x)
          = op :: rest.filter (fun x => !isBlockOp x) := by
        simp [List.filter_cons, hop2]
      have hfb : (op :: rest).filter (fun x => isBlockOp x)
          = rest.filter (fun x => isBlockOp x) := by
        simp [List.filter_cons, hop2]
      rw [hfn, hfb, List.foldl_cons, ih (applyOp c op), List.cons_append,
        List.foldl_cons]

/-- The builder fold accumulates exactly the Use interceptors (in order) and
the Serial/Parallel blocks (in order), independent of interleaving. -/
theorem foldl_applyOp_fields (ops : List (BuildOp I O)) (c : Chain I O) :
    (List.foldl applyOp c ops).interceptors = c.interceptors ++ usesOf ops
      ∧ (List.foldl applyOp c ops).fns = c.fns ++ blocksOf ops
      ∧ (List.foldl applyOp c ops).args = c.args := by
  induction ops generalizing c with
  | nil => exact ⟨by simp [usesOf], by simp [blocksOf], rfl⟩
  | cons op rest ih =>
    obtain ⟨ih1, ih2, ih3⟩ := ih (applyOp c op)
    cases op <;>
      simp_all [applyOp, Chain.WithContext, Chain.WithTimeout, Chain.WithMaxGoroutines,
        Chain.Use, Chain.Serial, Chain.Parallel, usesOf, blocksOf]

/-- Claim C1, counterexample: a chain whose single step, registered under
the name "boom", fails with the error "kaboom".  Execute returns exactly the
step's original error — errors.Unwrap (chain.go:139) has stripped the
wrapError annotation — so the returned error carries no step name and the
failing step is not attributable from the returned error alone. -/
theorem c1_counterexample :
    ((New (⟨0, ()⟩ : Ptr Unit) (⟨1, ()⟩ : Ptr Unit)).Serial
        [⟨"boom", fun _ _ o => (o, [], .fail (.base "kaboom"))⟩]).Execute
      = ([], .done ⟨1, ()⟩ (some (.base "kaboom")))
    ∧ GoError.namedWith "boom" (.base "kaboom") = false :=
  ⟨rfl, rfl⟩

/-- Claim C1 (amended): for every step failure that reaches Execute, the
engine's innermost handler does annotate the error with the failing step's
name (wrapError at chain.go:154), but Execute applies errors.Unwrap
(chain.go:139) before returning, so the caller receives the step's original
error with the name annotation stripped. -/
theorem c1_wrap_then_unwrap (ip : Ptr I) (op : Ptr O) (pre post : List (Step I O))
    (st : Step I O) (tm : Nat) (maxG : Int) (o1 o2 : O) (ev1 ev2 : List Event)
    (e : GoError)
    (h1 : runSerialSteps [] none ip.val pre op.val = (o1, ev1, .ok))
    (h2 : st.fn none ip.val o1 = (o2, ev2, .fail e)) :
    baseHandler st none ip.val o1 = (o2, ev2, .fail (GoError.wrap st.name e))
    ∧ Chain.Execute ⟨none, ⟨ip, op⟩, [Block.serial (pre ++ st :: post)], [], tm, maxG⟩
        = (ev1 ++ ev2, .done ⟨op.addr, o2⟩ (some e)) := by
  have hbase : baseHandler st none ip.val o1
      = (o2, ev2, .fail (GoError.wrap st.name e)) := by
    simp [baseHandler, h2, wrapError]
  refine ⟨hbase, ?_⟩
  have hser : runSerialSteps [] none ip.val (pre ++ st :: post) op.val
      = (o2, ev1 ++ ev2, .fail (GoError.wrap st.name e)) := by
    rw [runSerialSteps_append, h1]
    simp [runSerialSteps, buildInterceptors_nil, hbase]
  simp [Chain.Execute, runBlocks, runBlock, hser, goUnwrap]

/-- Claim C1 witness: the amended theorem at a concrete one-step chain. -/
theorem c1_wrap_then_unwrap_witness :
    baseHandler (I := Unit) (O := Unit)
        ⟨"w1", fun _ _ o => (o, [], .fail (.base "ew"))⟩ none () ()
      = ((), [], .fail (GoError.wrap "w1" (.base "ew")))
    ∧ Chain.Execute ⟨none, ⟨⟨0, ()⟩, ⟨1, ()⟩⟩,
        [Block.serial [⟨"w1", fun _ _ o => (o, [], .fail (.base "ew"))⟩]], [], 0, 0⟩
      = ([], .done ⟨1, ()⟩ (some (.base "ew"))) :=
  c1_wrap_then_unwrap ⟨0, ()⟩ ⟨1, ()⟩ [] []
    ⟨"w1", fun _ _ o => (o, [], .fail (.base "ew"))⟩ 0 0 () () [] []
    (.base "ew") rfl rfl

/-- Claim C2, counterexample: the first step of the first Sequential block,
registered under the name "boom2", fails with "e2".  No later step runs (no
later step's mark appears in the trace), and Execute's error is non-nil, but
it is the bare original error, carrying no step name: the returned error
does not identify the failing step. -/
theorem c2_counterexample :
    (((New (⟨0, ()⟩ : Ptr Unit) (⟨1, ()⟩ : Ptr Unit)).Serial
        [⟨"boom2", fun _ _ o => (o, [Event.tag "boom2"], .fail (.base "e2"))⟩,
         ⟨"after", fun _ _ o => (o, [Event.tag "after"], .ok)⟩]).Serial
        [⟨"later", fun _ _ o => (o, [Event.tag "later"], .ok)⟩]).Execute
      = ([Event.tag "boom2"], .done ⟨1, ()⟩ (some (.base "e2")))
    ∧ GoError.namedWith "boom2" (.base "e2") = false :=
  ⟨rfl, rfl⟩

/-- Claim C2 (amended): when a step of a Sequential block fails, no step
after it — neither the rest of that block nor any later block — is ever
invoked (the run's result does not depend on them at all), and Execute
returns a non-nil error, namely the failing step's own error with the
wrapError name annotation stripped by errors.Unwrap. -/
theorem c2_failfast_unwrapped (itcs : List (Interceptor I O)) (hb : builtinOnly itcs)
    (tm tm2 : Nat) (maxG : Int) (ip : Ptr I) (op : Ptr O)
    (preB postB postB2 : List (Block I O)) (pre post post2 : List (Step I O))
    (st : Step I O) (o0 o1 o2 : O) (ev0 ev1 ev2 : List Event) (e : GoError)
    (h0 : runBlocks itcs maxG none ip.val preB op.val = (o0, ev0, .ok))
    (h1 : runSerialSteps itcs none ip.val pre o0 = (o1, ev1, .ok))
    (h2 : st.fn none ip.val o1 = (o2, ev2, .fail e)) :
    (∃ ev, Chain.Execute ⟨none, ⟨ip, op⟩,
        preB ++ Block.serial (pre ++ st :: post) :: postB, itcs, tm, maxG⟩
      = (ev, .done ⟨op.addr, o2⟩ (some e)))
    ∧ Chain.Execute ⟨none, ⟨ip, op⟩,
        preB ++ Block.serial (pre ++ st :: post) :: postB, itcs, tm, maxG⟩
      = Chain.Execute ⟨none, ⟨ip, op⟩,
        preB ++ Block.serial (pre ++ st :: post2) :: postB2, itcs, tm2, maxG⟩ := by
  have hbase : baseHandler st none ip.val o1
      = (o2, ev2, .fail (GoError.wrap st.name e)) := by
    simp [baseHandler, h2, wrapError]
  obtain ⟨ev3, hev3⟩ :=
    builtin_preserves_fail itcs hb st none ip.val o1 o2 ev2 _ hbase
  have hser : ∀ x : List (Step I O),
      runSerialSteps itcs none ip.val (pre ++ st :: x) o0
        = (o2, ev1 ++ ev3, .fail (GoError.wrap st.name e)) := by
    intro x
    rw [runSerialSteps_append, h1]
    simp [runSerialSteps, hev3]
  have hblocks : ∀ (x : List (Step I O)) (bs : List (Block I O)),
      runBlocks itcs maxG none ip.val (preB ++ Block.serial (pre ++ st :: x) :: bs)
          op.val
        = (o2, ev0 ++ (ev1 ++ ev3), .fail (GoError.wrap st.name e)) := by
    intro x bs
    rw [runBlocks_append, h0]
    simp [runBlocks, runBlock, hser x]
  constructor
  · exact ⟨ev0 ++ (ev1 ++ ev3),
      by simp [Chain.Execute, hblocks post postB, goUnwrap]⟩
  · simp [Chain.Execute, hblocks post postB, hblocks post2 postB2]

/-- Claim C2 witness: the amended theorem at a concrete chain with a failing
first step, a trailing step in the same block and a trailing block. -/
theorem c2_failfast_unwrapped_witness :
    (∃ ev, Chain.Execute (I := Unit) (O := Unit) ⟨none, ⟨⟨0, ()⟩, ⟨1, ()⟩⟩,
        [Block.serial [⟨"w2", fun _ _ o => (o, [], .fail (.base "e2w"))⟩,
          ⟨"wafter", fun _ _ o => (o, [Event.tag "wafter"], .ok)⟩],
         Block.serial [⟨"wlater", fun _ _ o => (o, [Event.tag "wlater"], .ok)⟩]],
        [], 0, 0⟩
      = (ev, .done ⟨1, ()⟩ (some (.base "e2w"))))
    ∧ Chain.Execute (I := Unit) (O := Unit) ⟨none, ⟨⟨0, ()⟩, ⟨1, ()⟩⟩,
        [Block.serial [⟨"w2", fun _ _ o => (o, [], .fail (.base "e2w"))⟩,
          ⟨"wafter", fun _ _ o => (o, [Event.tag "wafter"], .ok)⟩],
         Block.serial [⟨"wlater", fun _ _ o => (o, [Event.tag "wlater"], .ok)⟩]],
        [], 0, 0⟩
      = Chain.Execute ⟨none, ⟨⟨0, ()⟩, ⟨1, ()⟩⟩,
        [Block.serial [⟨"w2", fun _ _ o => (o, [], .fail (.base "e2w"))⟩]], [], 7, 0⟩ := by
  have h := c2_failfast_unwrapped ([] : List (Interceptor Unit Unit))
    (fun itc hmem => absurd hmem (List.not_mem_nil itc)) 0 7 0 ⟨0, ()⟩ ⟨1, ()⟩
    [] [Block.serial [⟨"wlater", fun _ _ o => (o, [Event.tag "wlater"], .ok)⟩]] []
    [] [⟨"wafter", fun _ _ o => (o, [Event.tag "wafter"], .ok)⟩] []
    ⟨"w2", fun _ _ o => (o, [], .fail (.base "e2w"))⟩ () () () [] [] []
    (.base "e2w") rfl rfl rfl
  exact ⟨h.1, h.2⟩

/-- Claim C3: if the chain's base context is already done when Execute is
invoked, no step function is ever called — the run's entire result is
independent of every step's function body — the output is untouched, and the
error Execute returns is exactly the context's own error (the wrapError
annotation added inside the engine is stripped again by errors.Unwrap).
Requires at least one registered step, since a chain whose blocks are all
empty returns a nil error. -/
theorem c3_cancelled_no_step (itcs : List (Interceptor I O)) (hb : builtinOnly itcs)
    (tm : Nat) (maxG : Int) (ip : Ptr I) (op : Ptr O) (blocks : List (Block I O))
    (ce : GoError) (hne : ∃ b ∈ blocks, blockSteps b ≠ []) :
    (∃ ev, Chain.Execute ⟨some ce, ⟨ip, op⟩, blocks, itcs, tm, maxG⟩
        = (ev, .done op (some ce)))
    ∧ ∀ g : Step I O → HandleFunc I O,
        Chain.Execute ⟨some ce, ⟨ip, op⟩, blocks, itcs, tm, maxG⟩
          = Chain.Execute ⟨some ce, ⟨ip, op⟩, blocks.map (reBlock g), itcs, tm, maxG⟩ := by
  obtain ⟨ev, n, hev⟩ := runBlocks_cancelled itcs hb maxG ce ip.val blocks op.val hne
  constructor
  · exact ⟨ev, by simp [Chain.Execute, hev, wrapError, goUnwrap]⟩
  · intro g
    simp [Chain.Execute,
      runBlocks_cancelled_fn_irrel itcs hb maxG ce ip.val g blocks op.val]

/-- Claim C3 witness: a cancelled one-step chain returns context.Canceled,
and its run is unchanged when the step body is replaced wholesale. -/
theorem c3_cancelled_no_step_witness :
    (∃ ev, Chain.Execute (I := Unit) (O := Unit) ⟨some .canceled, ⟨⟨0, ()⟩, ⟨1, ()⟩⟩,
        [Block.serial [⟨"w3", fun _ _ o => (o, [Event.tag "w3"], .ok)⟩]], [], 0, 0⟩
      = (ev, .done ⟨1, ()⟩ (some .canceled)))
    ∧ Chain.Execute (I := Unit) (O := Unit) ⟨some .canceled, ⟨⟨0, ()⟩, ⟨1, ()⟩⟩,
        [Block.serial [⟨"w3", fun _ _ o => (o, [Event.tag "w3"], .ok)⟩]], [], 0, 0⟩
      = Chain.Execute ⟨some .canceled, ⟨⟨0, ()⟩, ⟨1, ()⟩⟩,
        [Block.serial [⟨"w3", fun _ _ o => (o, [Event.tag "ghost"], .ok)⟩]], [], 0, 0⟩ := by
  have h := c3_cancelled_no_step ([] : List (Interceptor Unit Unit))
    (fun itc hmem => absurd hmem (List.not_mem_nil itc)) 0 0 ⟨0, ()⟩ ⟨1, ()⟩
    [Block.serial [⟨"w3", fun _ _ o => (o, [Event.tag "w3"], .ok)⟩]] .canceled
    ⟨Block.serial [⟨"w3", fun _ _ o => (o, [Event.tag "w3"], .ok)⟩],
      List.mem_cons_self _ _, by simp [blockSteps]⟩
  exact ⟨h.1, h.2 (fun _ => fun _ _ o => (o, [Event.tag "ghost"], .ok))⟩

/-- Claim C4: with interceptor A registered before interceptor B (both of
the usual before/after shape), a step's execution is observed as A-before,
B-before, step, B-after, A-after, and buildInterceptors composes the built
callable as A (B (base step)) — the list is folded from last-registered to
first-registered, so the first-registered interceptor is outermost. -/
theorem c4_interceptor_order (a b : String) (tm : Nat) (maxG : Int)
    (ip : Ptr I) (op : Ptr O) (s : Step I O) (o1 : O) (ev : List Event) (r : Outcome)
    (h : s.fn none ip.val op.val = (o1, ev, r)) (hr : ∀ m, r ≠ .panicked m) :
    Chain.Execute ⟨none, ⟨ip, op⟩, [Block.serial [s]],
        [traceInterceptor a, traceInterceptor b], tm, maxG⟩
      = (Event.tag (a ++ "-before") :: Event.tag (b ++ "-before")
            :: (ev ++ [Event.tag (b ++ "-after"), Event.tag (a ++ "-after")]),
         .done ⟨op.addr, o1⟩
           (match r with | .ok => none | .fail e => some e | .panicked _ => none))
    ∧ buildInterceptors [traceInterceptor a, traceInterceptor b] s
        = traceInterceptor a (traceInterceptor b (baseHandler s)) := by
  refine ⟨?_, rfl⟩
  cases r with
  | ok =>
    simp [Chain.Execute, runBlocks, runBlock, runSerialSteps, buildInterceptors_cons,
      buildInterceptors_nil, traceInterceptor, baseHandler, h]
  | fail e =>
    simp [Chain.Execute, runBlocks, runBlock, runSerialSteps, buildInterceptors_cons,
      buildInterceptors_nil, traceInterceptor, baseHandler, h, wrapError, goUnwrap]
  | panicked m => exact absurd rfl (hr m)

/-- Claim C4 witness: the theorem at a concrete step and tags "A", "B". -/
theorem c4_interceptor_order_witness :
    Chain.Execute (I := Unit) (O := Unit) ⟨none, ⟨⟨0, ()⟩, ⟨1, ()⟩⟩,
        [Block.serial [⟨"w4", fun _ _ o => (o, [Event.tag "w4"], .ok)⟩]],
        [traceInterceptor "A", traceInterceptor "B"], 0, 0⟩
      = ([Event.tag "A-before", Event.tag "B-before", Event.tag "w4",
          Event.tag "B-after", Event.tag "A-after"], .done ⟨1, ()⟩ none)
    ∧ buildInterceptors [traceInterceptor "A", traceInterceptor "B"]
        (⟨"w4", fun _ _ o => (o, [Event.tag "w4"], .ok)⟩ : Step Unit Unit)
      = traceInterceptor "A" (traceInterceptor "B"
          (baseHandler ⟨"w4", fun _ _ o => (o, [Event.tag "w4"], .ok)⟩)) := by
  have h := c4_interceptor_order "A" "B" 0 0 ⟨0, ()⟩ ⟨1, ()⟩
    ⟨"w4", fun _ _ o => (o, [Event.tag "w4"], .ok)⟩ () [Event.tag "w4"] .ok rfl
    (fun m hm => Outcome.noConfusion hm)
  exact ⟨by simpa using h.1, h.2⟩

/-- Claim C5: a step that panics, run under the Recovery interceptor,
yields a normal non-nil error whose message is the fault marker
"panic in execution" followed by the panic payload; with no interceptor
installed, the panic propagates out of Execute as a process-crashing fault. -/
theorem c5_recover_converts_panics (st : Step I O) (ip : Ptr I) (op : Ptr O)
    (o1 : O) (ev : List Event) (m : String)
    (h : st.fn none ip.val op.val = (o1, ev, .panicked m)) :
    buildInterceptors [RecoverInterceptor] st none ip.val op.val
      = (o1, ev, .fail (.base ("panic in execution: " ++ m)))
    ∧ ∀ tm maxG, Chain.Execute ⟨none, ⟨ip, op⟩, [Block.serial [st]], [], tm, maxG⟩
        = (ev, .panicked m) := by
  constructor
  · simp [buildInterceptors_cons, buildInterceptors_nil, RecoverInterceptor,
      baseHandler, h]
  · intro tm maxG
    simp [Chain.Execute, runBlocks, runBlock, runSerialSteps, buildInterceptors_nil,
      baseHandler, h]

/-- Claim C5 witness: a concrete panicking step. -/
theorem c5_recover_converts_panics_witness :
    buildInterceptors [RecoverInterceptor]
        (⟨"w5", fun _ _ o => (o, [], .panicked "oops")⟩ : Step Unit Unit) none () ()
      = ((), [], .fail (.base "panic in execution: oops"))
    ∧ Chain.Execute ⟨none, ⟨⟨0, ()⟩, ⟨1, ()⟩⟩,
        [Block.serial [(⟨"w5", fun _ _ o => (o, [], .panicked "oops")⟩ : Step Unit Unit)]],
        [], 0, 0⟩
      = ([], .panicked "oops") := by
  have h := c5_recover_converts_panics
    (⟨"w5", fun _ _ o => (o, [], .panicked "oops")⟩ : Step Unit Unit)
    ⟨0, ()⟩ ⟨1, ()⟩ () [] "oops" rfl
  exact ⟨by simpa using h.1, h.2 0 0⟩

/-- Claim C6: a chain made only of Sequential blocks is a left-to-right
fold of the raw step functions over the shared state, in registration order:
each step sees every mutation of every earlier step, the final output is the
fold's output, and the outcome corresponds (with Execute returning the
fold's error unwrapped of its name annotation). -/
theorem c6_sequential_is_fold (ip : Ptr I) (op : Ptr O) (tm : Nat) (maxG : Int)
    (blocks : List (Block I O)) (hs : allSerial blocks) :
    Chain.Execute ⟨none, ⟨ip, op⟩, blocks, [], tm, maxG⟩
      = match foldHandleFuncs ip.val (stepsOfBlocks blocks) op.val with
        | (o1, ev, .ok) => (ev, .done ⟨op.addr, o1⟩ none)
        | (o1, ev, .fail e) => (ev, .done ⟨op.addr, o1⟩ (some e))
        | (o1, ev, .panicked m) => (ev, .panicked m) := by
  obtain ⟨f1, f2, f3⟩ := runBlocks_serial_vs_fold maxG ip.val blocks hs op.val
  rcases hf : foldHandleFuncs ip.val (stepsOfBlocks blocks) op.val with ⟨o1, ev, r⟩
  cases r with
  | ok => simp [Chain.Execute, f1 o1 ev hf]
  | fail e =>
    obtain ⟨n, hn⟩ := f2 o1 ev e hf
    simp [Chain.Execute, hn, goUnwrap]
  | panicked m => simp [Chain.Execute, f3 o1 ev m hf]

/-- Claim C6 witness: two Sequential blocks over a Nat state; the second
block's step observes the first one's mutation, matching the fold. -/
theorem c6_sequential_is_fold_witness :
    Chain.Execute (I := Nat) (O := Nat) ⟨none, ⟨⟨0, 5⟩, ⟨1, 0⟩⟩,
        [Block.serial [⟨"c6a", fun _ i o => (o + i, [Event.tag "c6a"], .ok)⟩],
         Block.serial [⟨"c6b", fun _ _ o => (o * 2, [Event.tag "c6b"], .ok)⟩]],
        [], 0, 0⟩
      = ([Event.tag "c6a", Event.tag "c6b"], .done ⟨1, 10⟩ none) := by
  have h := c6_sequential_is_fold (⟨0, 5⟩ : Ptr Nat) (⟨1, 0⟩ : Ptr Nat) 0 0
    [Block.serial [⟨"c6a", fun _ i o => (o + i, [Event.tag "c6a"], .ok)⟩],
     Block.serial [⟨"c6b", fun _ _ o => (o * 2, [Event.tag "c6b"], .ok)⟩]]
    (by
      intro b hb
      rcases List.mem_cons.mp hb with rfl | hb2
      · exact ⟨_, rfl⟩
      · rcases List.mem_cons.mp hb2 with rfl | hb3
        · exact ⟨_, rfl⟩
        · exact absurd hb3 (List.not_mem_nil b))
  simpa using h

/-- Claim C7, counterexample: under an already-cancelled context both
built-in interceptors invoke the callable they wrap — its mark appears in
the trace and its successful result is returned — instead of short-circuiting
with a cancellation failure.  The interceptors perform no cancellation check
of their own. -/
theorem c7_counterexample :
    LogInterceptor (I := Unit) (O := Unit)
        (fun _ _ o => (o, [Event.tag "inner"], .ok)) (some .canceled) () ()
      = ((), [Event.logBefore, Event.tag "inner", Event.logAfter], .ok)
    ∧ RecoverInterceptor (I := Unit) (O := Unit)
        (fun _ _ o => (o, [Event.tag "inner"], .ok)) (some .canceled) () ()
      = ((), [Event.tag "inner"], .ok) :=
  ⟨rfl, rfl⟩

/-- Claim C7 (amended): the cancellation check does not live in the
interceptors but in the innermost wrapper that buildInterceptors installs
around the step (chain.go:149-151): under a done context that wrapper
short-circuits with the wrapped context error before invoking the step —
for every step, independently of its body — while an installed built-in
interceptor still runs its own before/after logic around the short-circuit. -/
theorem c7_engine_checks_cancellation (st : Step I O) (ce : GoError) (i : I) (o : O) :
    baseHandler st (some ce) i o = (o, [], .fail (wrapError st.name ce))
    ∧ buildInterceptors [LogInterceptor] st (some ce) i o
        = (o, [.logBefore, .logWarn], .fail (wrapError st.name ce))
    ∧ buildInterceptors [RecoverInterceptor] st (some ce) i o
        = (o, [], .fail (wrapError st.name ce)) :=
  ⟨rfl, rfl, rfl⟩

/-- Claim C8, counterexample: a Parallel block registered before the
WithMaxGoroutines(2) call still runs under the cap — the g.SetLimit(2) call
is observed when that block executes — because the block's closure reads
c.maxGoroutines only at execution time.  The cap is not limited to blocks
registered after the call. -/
theorem c8_counterexample :
    (((New (⟨0, ()⟩ : Ptr Unit) (⟨1, ()⟩ : Ptr Unit)).Parallel
        [⟨"p8", fun _ _ o => (o, [Event.tag "p8"], .ok)⟩]).WithMaxGoroutines 2).Execute
      = ([Event.setLimit 2, Event.tag "p8"], .done ⟨1, ()⟩ none) :=
  rfl

/-- Claim C8 (amended): WithMaxGoroutines(n) writes a chain-wide field that
every Parallel block reads when it executes, so the value in force when
Execute runs caps every Parallel block of the chain regardless of whether
the block was registered before or after the call; n ≤ 0 means no limit is
applied (unbounded).  The call itself never touches the registered blocks. -/
theorem c8_cap_is_chain_wide (itcs : List (Interceptor I O)) (maxG : Int) (ctx : Ctx)
    (i : I) (fns : List (Step I O)) (o : O) (ip : Ptr I) (op : Ptr O)
    (ops : List (BuildOp I O)) (n : Int) :
    (maxG ≤ 0 → runBlock itcs maxG ctx i (.parallel fns) o
        = runParallelSteps itcs ctx i fns o none)
    ∧ (0 < maxG → runBlock itcs maxG ctx i (.parallel fns) o
        = (match runParallelSteps itcs ctx i fns o none with
           | (o1, ev, r) => (o1, Event.setLimit maxG :: ev, r)))
    ∧ (buildChain ip op (ops ++ [BuildOp.withMaxGoroutines n])).maxGoroutines = n
    ∧ (buildChain ip op (ops ++ [BuildOp.withMaxGoroutines n])).fns
        = (buildChain ip op ops).fns := by
  refine ⟨?_, ?_, ?_, ?_⟩
  · intro hle
    rcases hp : runParallelSteps itcs ctx i fns o none with ⟨o1, ev, r⟩
    simp [runBlock, hp, if_neg (not_lt.mpr hle)]
  · intro hlt
    rcases hp : runParallelSteps itcs ctx i fns o none with ⟨o1, ev, r⟩
    simp [runBlock, hp, if_pos hlt]
  · simp [buildChain, List.foldl_append, applyOp, Chain.WithMaxGoroutines]
  · simp [buildChain, List.foldl_append, applyOp, Chain.WithMaxGoroutines]

/-- Claim C8 witness: the amended theorem at an unbounded (0) and a bounded
(2) cap.  The theorem is applied twice so both implications are exercised. -/
theorem c8_cap_is_chain_wide_witness :
    runBlock ([] : List (Interceptor Unit Unit)) 0 none ()
        (.parallel [⟨"p8w", fun _ _ o => (o, [Event.tag "p8w"], .ok)⟩]) ()
      = runParallelSteps [] none ()
          [⟨"p8w", fun _ _ o => (o, [Event.tag "p8w"], .ok)⟩] () none
    ∧ runBlock ([] : List (Interceptor Unit Unit)) 2 none ()
        (.parallel [⟨"p8w", fun _ _ o => (o, [Event.tag "p8w"], .ok)⟩]) ()
      = (match runParallelSteps [] none ()
            [⟨"p8w", fun _ _ o => (o, [Event.tag "p8w"], .ok)⟩] () none with
         | (o1, ev, r) => (o1, Event.setLimit 2 :: ev, r))
    ∧ (buildChain (⟨0, ()⟩ : Ptr Unit) (⟨1, ()⟩ : Ptr Unit)
        ([BuildOp.parallel [⟨"p8w", fun _ _ o => (o, [Event.tag "p8w"], .ok)⟩]]
          ++ [BuildOp.withMaxGoroutines 2])).maxGoroutines = 2
    ∧ (buildChain (⟨0, ()⟩ : Ptr Unit) (⟨1, ()⟩ : Ptr Unit)
        ([BuildOp.parallel [⟨"p8w", fun _ _ o => (o, [Event.tag "p8w"], .ok)⟩]]
          ++ [BuildOp.withMaxGoroutines 2])).fns
      = (buildChain (⟨0, ()⟩ : Ptr Unit) (⟨1, ()⟩ : Ptr Unit)
          [BuildOp.parallel [⟨"p8w", fun _ _ o => (o, [Event.tag "p8w"], .ok)⟩]]).fns := by
  have h0 := c8_cap_is_chain_wide ([] : List (Interceptor Unit Unit)) 0 none ()
    [⟨"p8w", fun _ _ o => (o, [Event.tag "p8w"], .ok)⟩] () ⟨0, ()⟩ ⟨1, ()⟩
    [BuildOp.parallel [⟨"p8w", fun _ _ o => (o, [Event.tag "p8w"], .ok)⟩]] 2
  have h2 := c8_cap_is_chain_wide ([] : List (Interceptor Unit Unit)) 2 none ()
    [⟨"p8w", fun _ _ o => (o, [Event.tag "p8w"], .ok)⟩] () ⟨0, ()⟩ ⟨1, ()⟩
    [BuildOp.parallel [⟨"p8w", fun _ _ o => (o, [Event.tag "p8w"], .ok)⟩]] 2
  exact ⟨h0.1 (by decide), h2.2.1 (by decide), h2.2.2.1, h2.2.2.2⟩

/-- Claim C9: an interceptor registered with Use at any point before Execute
wraps every step of every block.  Builder-wise, Use commutes with block
registration — any build sequence produces the same chain as the sequence
with all non-block calls moved (order preserved) in front of all block
registrations — and the final chain carries all Use interceptors and all
blocks in registration order; Execute then folds the full interceptor list
around each step at dispatch time (runSerialSteps/runParallelSteps call
buildInterceptors with the chain's final list). -/
theorem c9_use_position_irrelevant (ip : Ptr I) (op : Ptr O) (ops : List (BuildOp I O)) :
    buildChain ip op ops
      = buildChain ip op
          (ops.filter (fun x => !isBlockOp x) ++ ops.filter (fun x => isBlockOp x))
    ∧ (buildChain ip op ops).interceptors = usesOf ops
    ∧ (buildChain ip op ops).fns = blocksOf ops := by
  obtain ⟨h1, h2, -⟩ := foldl_applyOp_fields ops (New ip op)
  exact ⟨foldl_applyOp_partition ops (New ip op),
    by simpa [New] using h1, by simpa [New] using h2⟩

/-- Claim C10: every builder call leaves the chain's Args — the input and
output pointers given to New — untouched; Execute returns the stored output
pointer (same address) whether it succeeds or fails; and a chain with no
registered blocks returns the untouched output pointer with a nil error. -/
theorem c10_pointer_stability (ip : Ptr I) (op : Ptr O) (ops : List (BuildOp I O)) :
    (buildChain ip op ops).args = ⟨ip, op⟩
    ∧ (∀ tr out err, (buildChain ip op ops).Execute = (tr, .done out err) →
        out.addr = op.addr)
    ∧ ((buildChain ip op ops).fns = [] →
        (buildChain ip op ops).Execute = ([], .done op none)) := by
  obtain ⟨-, -, hargs⟩ := foldl_applyOp_fields ops (New ip op)
  have hargs2 : (buildChain ip op ops).args = ⟨ip, op⟩ := hargs
  refine ⟨hargs2, ?_, ?_⟩
  · intro tr out err heq
    rcases hrb : runBlocks (buildChain ip op ops).interceptors
        (buildChain ip op ops).maxGoroutines (buildChain ip op ops).ctx
        (buildChain ip op ops).args.input.val (buildChain ip op ops).fns
        (buildChain ip op ops).args.output.val with ⟨o1, ev, r⟩
    cases r with
    | ok =>
      simp only [Chain.Execute, hrb, Prod.mk.injEq, ExecResult.done.injEq] at heq
      obtain ⟨-, hout, -⟩ := heq
      rw [← hout, hargs2]
    | fail e =>
      simp only [Chain.Execute, hrb, Prod.mk.injEq, ExecResult.done.injEq] at heq
      obtain ⟨-, hout, -⟩ := heq
      rw [← hout, hargs2]
    | panicked m =>
      simp only [Chain.Execute, hrb] at heq
      simp at heq
  · intro hfns
    simp [Chain.Execute, hfns, runBlocks, hargs2]

/-- Claim C10 witness: the theorem at the empty build sequence, where all
three hypotheses are dischargeable. -/
theorem c10_pointer_stability_witness :
    (buildChain (⟨0, ()⟩ : Ptr Unit) (⟨1, ()⟩ : Ptr Unit) []).args = ⟨⟨0, ()⟩, ⟨1, ()⟩⟩
    ∧ (⟨1, ()⟩ : Ptr Unit).addr = (⟨1, ()⟩ : Ptr Unit).addr
    ∧ (buildChain (⟨0, ()⟩ : Ptr Unit) (⟨1, ()⟩ : Ptr Unit) []).Execute
        = ([], .done ⟨1, ()⟩ none) := by
  have h := c10_pointer_stability (⟨0, ()⟩ : Ptr Unit) (⟨1, ()⟩ : Ptr Unit) []
  exact ⟨h.1, h.2.1 [] ⟨1, ()⟩ none (h.2.2 rfl), h.2.2 rfl⟩

end ChainGo
